import Mathlib

/-!
Verification of the Betweenness-Centrality repository.

The development shallowly embeds the Python code of
`src/mypackage/mymodule1.py` (classes `BetweennessCentrality`, `Networkx`,
`Geo`), `src/mypackage/mymodule2.py` (`input_from_commandline`) and
`src/main.py` (`main`).  External collaborators (the osmnx router, pandas,
the file system, argparse) are abstracted as explicitly documented
parameters or small state-passing models; every piece of logic owned by the
repository itself is translated faithfully.
-/

namespace BC

/-- A graph node, identified by its OSM node id. -/
abbrev Node := Nat

/-- A route as returned by the external router `ox.shortest_path`:
the list of node ids along the path. -/
abbrev Route := List Node

/-- One sampling-and-filtering pass of the body of the `while` loop in
`Geo.generate_routes`:

    origs = np.random.choice(self.graph.nodes, size=temp, replace=True)
    dests = np.random.choice(self.graph.nodes, size=temp, replace=True)
    routes = ox.shortest_path(self.graph, origs, dests, weight=self.weight)
    temp_valid = [r for r in routes if r is not None]

`sp` abstracts the external call `ox.shortest_path` on one
origin/destination pair (`none` models Python `None`); `pairs` abstracts
the stream of random origin/destination draws, of which the pass consumes
indices `start, start+1, ..., start+cnt-1`.  `filterMap` performs exactly
the `r is not None` filtering of the list comprehension, preserving order. -/
def sampleBatch (sp : Node → Node → Option Route) (pairs : Nat → Node × Node)
    (start cnt : Nat) : List Route :=
  (List.range cnt).filterMap (fun i => sp (pairs (start + i)).1 (pairs (start + i)).2)

/-- The retry loop of `Geo.generate_routes`:

    routes_valid = []
    temp = self.n - len(routes_valid)
    while temp != 0:
        ...
        routes_valid.extend(temp_valid)
        temp = self.n - len(routes_valid)
    return routes_valid

`acc` is `routes_valid`, `n` is `self.n`, and `start` indexes the random
stream.  The Python loop has no iteration bound, so it is rendered with a
`fuel` parameter: `some rs` means the loop exits with result `rs` within
`fuel` iterations, `none` means it is still running after `fuel`
iterations.  The shortfall `temp = n - acc.length` is recomputed exactly as
in the source at every loop entry. -/
def generateRoutesAux (sp : Node → Node → Option Route) (pairs : Nat → Node × Node)
    (n : Nat) : Nat → Nat → List Route → Option (List Route)
  | 0, _, acc => if n - acc.length = 0 then some acc else none
  | fuel + 1, start, acc =>
    if n - acc.length = 0 then some acc
    else
      generateRoutesAux sp pairs n fuel (start + (n - acc.length))
        (acc ++ sampleBatch sp pairs start (n - acc.length))

/-- `Geo.generate_routes`, starting from the empty accumulator. -/
def generate_routes (sp : Node → Node → Option Route) (pairs : Nat → Node × Node)
    (n fuel : Nat) : Option (List Route) :=
  generateRoutesAux sp pairs n fuel 0 []

theorem sampleBatch_length_le (sp : Node → Node → Option Route)
    (pairs : Nat → Node × Node) (start cnt : Nat) :
    (sampleBatch sp pairs start cnt).length ≤ cnt := by
  have h := List.length_filterMap_le
    (fun i => sp (pairs (start + i)).1 (pairs (start + i)).2) (List.range cnt)
  simpa [sampleBatch] using h

theorem mem_sampleBatch {sp : Node → Node → Option Route} {pairs : Nat → Node × Node}
    {start cnt : Nat} {r : Route} (h : r ∈ sampleBatch sp pairs start cnt) :
    ∃ j, sp (pairs j).1 (pairs j).2 = some r := by
  rcases List.mem_filterMap.1 h with ⟨i, _, hi⟩
  exact ⟨start + i, hi⟩

theorem generateRoutesAux_length (sp : Node → Node → Option Route)
    (pairs : Nat → Node × Node) (n : Nat) :
    ∀ fuel start acc, acc.length ≤ n →
      ∀ rs, generateRoutesAux sp pairs n fuel start acc = some rs → rs.length = n := by
  intro fuel
  induction fuel with
  | zero =>
    intro start acc hle rs h
    simp only [generateRoutesAux] at h
    by_cases h0 : n - acc.length = 0
    · simp only [h0, if_pos rfl] at h
      cases h
      omega
    · simp [h0] at h
  | succ fuel ih =>
    intro start acc hle rs h
    simp only [generateRoutesAux] at h
    by_cases h0 : n - acc.length = 0
    · simp only [h0, if_pos rfl] at h
      cases h
      omega
    · rw [if_neg h0] at h
      refine ih _ _ ?_ rs h
      have hb := sampleBatch_length_le sp pairs start (n - acc.length)
      simp only [List.length_append]
      omega

theorem generateRoutesAux_mem (sp : Node → Node → Option Route)
    (pairs : Nat → Node × Node) (n : Nat) :
    ∀ fuel start acc rs, generateRoutesAux sp pairs n fuel start acc = some rs →
      ∀ r ∈ rs, r ∈ acc ∨ ∃ j, sp (pairs j).1 (pairs j).2 = some r := by
  intro fuel
  induction fuel with
  | zero =>
    intro start acc rs h r hr
    simp only [generateRoutesAux] at h
    by_cases h0 : n - acc.length = 0
    · simp only [h0, if_pos rfl] at h
      cases h
      exact Or.inl hr
    · simp [h0] at h
  | succ fuel ih =>
    intro start acc rs h r hr
    simp only [generateRoutesAux] at h
    by_cases h0 : n - acc.length = 0
    · simp only [h0, if_pos rfl] at h
      cases h
      exact Or.inl hr
    · rw [if_neg h0] at h
      rcases ih _ _ _ h r hr with hacc | hsp
      · rcases List.mem_append.1 hacc with hl | hb
        · exact Or.inl hl
        · exact Or.inr (mem_sampleBatch hb)
      · exact Or.inr hsp

theorem sampleBatch_eq_nil {sp : Node → Node → Option Route} {pairs : Nat → Node × Node}
    (hnone : ∀ o d, sp o d = none) (start cnt : Nat) :
    sampleBatch sp pairs start cnt = [] := by
  simp [sampleBatch, hnone]

theorem generateRoutesAux_none_of_all_none {sp : Node → Node → Option Route}
    {pairs : Nat → Node × Node} {n : Nat} (hn : 0 < n) (hnone : ∀ o d, sp o d = none) :
    ∀ fuel start, generateRoutesAux sp pairs n fuel start [] = none := by
  intro fuel
  induction fuel with
  | zero =>
    intro start
    simp only [generateRoutesAux, List.length_nil, Nat.sub_zero]
    rw [if_neg (by omega)]
  | succ fuel ih =>
    intro start
    simp only [generateRoutesAux, List.length_nil, Nat.sub_zero]
    rw [if_neg (by omega), sampleBatch_eq_nil hnone]
    simpa using ih _

theorem generateRoutesAux_isSome {sp : Node → Node → Option Route}
    {pairs : Nat → Node × Node} {n : Nat}
    (hprod : ∀ start cnt, 0 < cnt → 0 < (sampleBatch sp pairs start cnt).length) :
    ∀ fuel start acc, n - acc.length ≤ fuel →
      (generateRoutesAux sp pairs n fuel start acc).isSome = true := by
  intro fuel
  induction fuel with
  | zero =>
    intro start acc hle
    have h0 : n - acc.length = 0 := by omega
    simp [generateRoutesAux, h0]
  | succ fuel ih =>
    intro start acc hle
    by_cases h0 : n - acc.length = 0
    · simp [generateRoutesAux, h0]
    · simp only [generateRoutesAux]
      rw [if_neg h0]
      apply ih
      have hb1 : 0 < (sampleBatch sp pairs start (n - acc.length)).length :=
        hprod start _ (by omega)
      simp only [List.length_append]
      omega

/-- Fixture for witnesses: a router that succeeds with the two-node route
`[o, d]` exactly when the endpoints differ. -/
def spW : Node → Node → Option Route :=
  fun o d => if o = d then none else some [o, d]

/-- Fixture for witnesses: a random stream that always draws the pair `(0, 1)`. -/
def pairsW : Nat → Node × Node := fun _ => (0, 1)

/-- Fixture for witnesses: a router that never finds a path. -/
def spNone : Node → Node → Option Route := fun _ _ => none

/-- The router behaviour the underlying libraries exhibit on a same-node
draw: networkx's shortest path from a node to itself is the non-null
single-node path `[o]` (osmnx catches only `NetworkXNoPath`), while
distinct reachable endpoints give a multi-node path — here the two-node
path of a single-edge graph on nodes 0 and 1. -/
def spDeg : Node → Node → Option Route :=
  fun o d => if o = d then some [o] else some [o, d]

/-- A random stream whose draws are the same-node pair (0, 0) — an event
of positive probability under uniform sampling with replacement. -/
def pairsSame : Nat → Node × Node := fun _ => (0, 0)

/-- C1 (code bug): the filter in `Geo.generate_routes` removes only
`None` (`[r for r in routes if r is not None]`, mymodule1.py:152), so on
a same-node draw the loop keeps the router's non-null single-node path
and terminates: the sampled pair (0, 0) with requested count 1 returns
the route list `[[0]]`, whose route has exactly one node — the returned
list does contain a degenerate route, contradicting the guarantee the
claim states (which the superseded module `src/mymodule1.py` still
enforced through the `len(routes[i]) == 1` test of its `check_edges`). -/
theorem C1_degenerate_route_kept :
    generate_routes spDeg pairsSame 1 1 = some [[0]] ∧ ([0] : Route).length = 1 := by
  constructor
  · rfl
  · rfl

/-- C2: whenever the retry loop of `Geo.generate_routes` terminates it
returns exactly `n` valid paths (first conjunct), and each loop iteration
resamples only the shortfall `n - len(routes_valid)`, not the full `n`
(second conjunct: the loop-step equation, in which the batch drawn from the
random stream has size exactly the shortfall). -/
theorem C2_generate_routes_exactly_n (sp : Node → Node → Option Route)
    (pairs : Nat → Node × Node) (n fuel : Nat) :
    (∀ rs, generate_routes sp pairs n fuel = some rs → rs.length = n) ∧
    (∀ f start acc, n - List.length acc ≠ 0 →
      generateRoutesAux sp pairs n (f + 1) start acc =
        generateRoutesAux sp pairs n f (start + (n - List.length acc))
          (acc ++ sampleBatch sp pairs start (n - List.length acc))) := by
  constructor
  · intro rs h
    exact generateRoutesAux_length sp pairs n fuel 0 [] (by simp) rs h
  · intro f start acc h0
    simp only [generateRoutesAux]
    rw [if_neg h0]

theorem C2_witness :
    ([[0, 1], [0, 1]] : List Route).length = 2 ∧
    generateRoutesAux spW pairsW 2 1 0 [] =
      generateRoutesAux spW pairsW 2 0 (0 + (2 - List.length ([] : List Route)))
        ([] ++ sampleBatch spW pairsW 0 (2 - List.length ([] : List Route))) := by
  constructor
  · exact (C2_generate_routes_exactly_n spW pairsW 2 1).1 [[0, 1], [0, 1]] (by decide)
  · exact (C2_generate_routes_exactly_n spW pairsW 2 1).2 0 0 [] (by decide)

/-- C3: the retry loop of `Geo.generate_routes` has no iteration bound.
First conjunct: for a positive request on a graph where no sampled pair
ever yields a valid path (router always `None`, e.g. the pairs straddle
disconnected components), the loop is still running after every finite
number `fuel` of iterations — it does not terminate.  Second conjunct:
under the precondition that every sampling pass yields at least one valid
path, the loop terminates (within `n` iterations), i.e. the function is
total. -/
theorem C3_generate_routes_unbounded_retry (sp : Node → Node → Option Route)
    (pairs : Nat → Node × Node) (n : Nat) :
    (0 < n → (∀ o d, sp o d = none) →
      ∀ fuel, generate_routes sp pairs n fuel = none) ∧
    ((∀ start cnt, 0 < cnt → 0 < (sampleBatch sp pairs start cnt).length) →
      ∀ fuel, n ≤ fuel → (generate_routes sp pairs n fuel).isSome = true) := by
  constructor
  · intro hn hnone fuel
    exact generateRoutesAux_none_of_all_none hn hnone fuel 0
  · intro hprod fuel hle
    exact generateRoutesAux_isSome hprod fuel 0 [] (by simpa using hle)

theorem C3_witness :
    generate_routes spNone pairsW 1 5 = none ∧
    (generate_routes spW pairsW 2 2).isSome = true := by
  constructor
  · exact (C3_generate_routes_unbounded_retry spNone pairsW 1).1 (by decide)
      (fun o d => rfl) 5
  · refine (C3_generate_routes_unbounded_retry spW pairsW 2).2 ?_ 2 (by decide)
    intro start cnt hc
    have : sampleBatch spW pairsW start cnt =
        (List.range cnt).map (fun _ => ([0, 1] : Route)) := by
      simp only [sampleBatch, pairsW, spW]
      rw [show (fun i : Nat => if (0 : Nat) = 1 then none else some [0, 1]) =
        some ∘ (fun _ : Nat => ([0, 1] : Route)) from rfl]
      exact List.filterMap_eq_map _ ▸ rfl
    simp [this, hc]

/-- An edge key: (origin node, destination node, parallel-edge index),
the `(u, v, key)` index of the edge tables. -/
abbrev EdgeKey := Nat × Nat × Nat

/-- `ox.routing.route_to_gdf` expands a route into its constituent edges:
one row per consecutive node pair of the route.  For parallel edges the
external library picks one parallel-edge index (the minimal-weight one);
that external choice is abstracted as `keyOf`. -/
def routeToEdges (keyOf : Node → Node → Nat) (r : Route) : List EdgeKey :=
  (r.zip r.tail).map (fun p => (p.1, p.2, keyOf p.1 p.2))

/-- `Geo.centrality`: concatenate the per-route edge tables
(`pd.concat(routes_gdf_list)`), then group by `(u, v, key)` and count
(`routes_gdf.groupby(["u", "v", "key"]).count()["osmid"]`, renamed to
`centrality`).  The table has one row per distinct edge key occurring in
the concatenation, carrying the number of occurrences of that key; row
order (pandas sorts the group keys) is not modelled, the claims about the
table are order-insensitive. -/
def centralityTable (keyOf : Node → Node → Nat) (routes : List Route) :
    List (EdgeKey × Nat) :=
  let es := (routes.map (routeToEdges keyOf)).flatten
  es.dedup.map (fun e => (e, es.count e))

theorem count_eq_one_of_nodup_mem {β : Type} [BEq β] [LawfulBEq β]
    {l : List β} {e : β} (hnd : l.Nodup) (he : e ∈ l) : l.count e = 1 := by
  induction l with
  | nil => cases he
  | cons a l ih =>
    rw [List.count_cons]
    rcases List.nodup_cons.1 hnd with ⟨hna, hnl⟩
    rcases List.mem_cons.1 he with rfl | hel
    · rw [List.count_eq_zero.2 hna]
      simp
    · have hne : e ≠ a := fun h => hna (h ▸ hel)
      rw [ih hnl hel]
      simp [Ne.symm hne]

theorem count_flatten_eq_countP {α β : Type} [BEq β] [LawfulBEq β] [DecidableEq β]
    (f : α → List β) (e : β) :
    ∀ l : List α, (∀ x ∈ l, (f x).Nodup) →
      ((l.map f).flatten.count e) = l.countP (fun x => decide (e ∈ f x)) := by
  intro l
  induction l with
  | nil => intro _; simp
  | cons x xs ih =>
    intro hnd
    have hx : (f x).Nodup := hnd x (by simp)
    have hxs : ∀ y ∈ xs, (f y).Nodup := fun y hy => hnd y (by simp [hy])
    simp only [List.map_cons, List.flatten_cons, List.count_append, List.countP_cons,
      ih hxs]
    by_cases he : e ∈ f x
    · rw [count_eq_one_of_nodup_mem hx he]
      simp [he]
      omega
    · rw [List.count_eq_zero.2 he]
      simp [he]

/-- C4: the centrality table built by `Geo.centrality` assigns to each edge
key present in it the number of sampled routes traversing that edge (first
conjunct), and an edge traversed by no sampled route has no row (second
conjunct).  The hypothesis `hnd` records that no single route traverses
the same edge twice — true of the shortest paths the external router
returns, and what makes the occurrence count of the groupby equal the
route count. -/
theorem C4_centrality_counts_routes (keyOf : Node → Node → Nat) (routes : List Route)
    (hnd : ∀ r ∈ routes, (routeToEdges keyOf r).Nodup) :
    (∀ e c, (e, c) ∈ centralityTable keyOf routes →
      c = routes.countP (fun r => decide (e ∈ routeToEdges keyOf r))) ∧
    (∀ e, (∀ r ∈ routes, e ∉ routeToEdges keyOf r) →
      ∀ c, (e, c) ∉ centralityTable keyOf routes) := by
  constructor
  · intro e c hmem
    simp only [centralityTable, List.mem_map] at hmem
    rcases hmem with ⟨a, _, heq⟩
    injection heq with h1 h2
    rw [← h2, ← h1]
    exact count_flatten_eq_countP (routeToEdges keyOf) a routes hnd
  · intro e hnone c hmem
    simp only [centralityTable, List.mem_map] at hmem
    rcases hmem with ⟨a, ha, heq⟩
    have hae : a = e := (Prod.mk.injEq .. ▸ heq).1
    subst hae
    have : a ∈ (routes.map (routeToEdges keyOf)).flatten := List.mem_dedup.1 ha
    rcases List.mem_flatten.1 this with ⟨l, hl, hal⟩
    rcases List.mem_map.1 hl with ⟨r, hr, rfl⟩
    exact hnone r hr hal

/-- Fixture for witnesses: the parallel-edge choice that always picks index 0. -/
def keyOfW : Node → Node → Nat := fun _ _ => 0

theorem C4_witness :
    (∀ e c, (e, c) ∈ centralityTable keyOfW [[0, 1], [0, 1], [1, 2]] →
      c = ([[0, 1], [0, 1], [1, 2]] : List Route).countP
        (fun r => decide (e ∈ routeToEdges keyOfW r))) ∧
    (∀ e, (∀ r ∈ ([[0, 1], [0, 1], [1, 2]] : List Route), e ∉ routeToEdges keyOfW r) →
      ∀ c, (e, c) ∉ centralityTable keyOfW [[0, 1], [0, 1], [1, 2]]) :=
  C4_centrality_counts_routes keyOfW [[0, 1], [0, 1], [1, 2]] (by decide)

/-- C5 (code bug): on the single-edge graph, a same-node draw (an event of
positive probability) defeats the claimed guarantee: with requested count
1 the loop keeps the router's non-null single-node path `[0]`
(`generate_routes` filters only `None`), the edge expansion of that route
is empty, and the resulting centrality table is empty — it does not
contain the claimed single row assigning centrality 1 to the viable edge,
contrary to the spec's testable property and to the expectation of
`test_geo_centrality`. -/
theorem C5_degenerate_draw_empty_table :
    generate_routes spDeg pairsSame 1 1 = some [[0]] ∧
    centralityTable keyOfW [[0]] = [] := by
  constructor
  · rfl
  · rfl

/-- One left row's contribution to the pandas left join
`self.centrality_df.join(self.edges_df[["osmid", "geometry"]])` in
`BetweennessCentrality.join_dataframe`.  `edges` is the edge geometry table
(edge key together with the carried attributes, abstracted as `α` holding
osmid and geometry), `p` one row of the centrality table.  Pandas emits one
output row per matching right row, and a single row with missing
attributes (`none`, pandas NaN) when no right row matches. -/
def joinRows {α : Type} (edges : List (EdgeKey × α)) (p : EdgeKey × Nat) :
    List (EdgeKey × Nat × Option α) :=
  let ms := edges.filter (fun q => decide (q.1 = p.1))
  if ms.isEmpty then [(p.1, p.2, none)]
  else ms.map (fun q => (p.1, p.2, some q.2))

/-- `BetweennessCentrality.join_dataframe`: the pandas left join of the
centrality table with the edge geometry table, keyed by `(u, v, key)`. -/
def join_dataframe {α : Type} (edges : List (EdgeKey × α))
    (ctab : List (EdgeKey × Nat)) : List (EdgeKey × Nat × Option α) :=
  (ctab.map (joinRows edges)).flatten

theorem filter_key_length_le_one {α : Type} (edges : List (EdgeKey × α)) (k : EdgeKey)
    (hnd : (edges.map Prod.fst).Nodup) :
    (edges.filter (fun q => decide (q.1 = k))).length ≤ 1 := by
  induction edges with
  | nil => simp
  | cons a es ih =>
    rw [List.map_cons, List.nodup_cons] at hnd
    rcases hnd with ⟨hna, hnd⟩
    rw [List.filter_cons]
    by_cases hk : a.1 = k
    · have hnil : es.filter (fun q => decide (q.1 = k)) = [] := by
        rw [List.filter_eq_nil_iff]
        intro q hq
        simp only [decide_eq_true_eq]
        intro hqk
        exact hna (hk ▸ hqk ▸ List.mem_map_of_mem Prod.fst hq)
      simp [hk, hnil]
    · simpa [hk] using ih hnd

theorem joinRows_length {α : Type} (edges : List (EdgeKey × α)) (p : EdgeKey × Nat)
    (hnd : (edges.map Prod.fst).Nodup) : (joinRows edges p).length = 1 := by
  unfold joinRows
  by_cases hm : (edges.filter (fun q => decide (q.1 = p.1))).isEmpty
  · simp [hm]
  · rw [if_neg hm, List.length_map]
    have hle := filter_key_length_le_one edges p.1 hnd
    have hne : (edges.filter (fun q => decide (q.1 = p.1))).length ≠ 0 := by
      intro h0
      exact hm (List.isEmpty_iff_length_eq_zero.2 h0)
    omega

theorem mem_joinRows {α : Type} {edges : List (EdgeKey × α)} {p : EdgeKey × Nat}
    {row : EdgeKey × Nat × Option α}
    (htot : ∃ a, (p.1, a) ∈ edges) (hrow : row ∈ joinRows edges p) :
    ∃ a, row.2.2 = some a ∧ (row.1, a) ∈ edges := by
  unfold joinRows at hrow
  by_cases hm : (edges.filter (fun q => decide (q.1 = p.1))).isEmpty
  · rcases htot with ⟨a, ha⟩
    have : ((p.1, a) : EdgeKey × α) ∈ edges.filter (fun q => decide (q.1 = p.1)) :=
      List.mem_filter.2 ⟨ha, by simp⟩
    rw [List.isEmpty_iff.1 hm] at this
    cases this
  · rw [if_neg hm] at hrow
    rcases List.mem_map.1 hrow with ⟨q, hq, rfl⟩
    rcases List.mem_filter.1 hq with ⟨hqe, hqk⟩
    simp only [decide_eq_true_eq] at hqk
    refine ⟨q.2, rfl, ?_⟩
    rw [← hqk]
    simpa using hqe

/-- C6: `join_dataframe` drops no rows — the centrality layer has exactly
as many rows as the centrality table (first conjunct; the hypothesis `hnd`
records that the edge geometry table has one row per edge key, true of the
tables `ox.graph_to_gdfs` produces) — and under the precondition that
every key of the centrality table exists in the edge geometry table, every
row of the layer carries that edge's attributes (osmid and geometry): the
join is total (second conjunct). -/
theorem C6_join_total_no_dropped_rows {α : Type} (edges : List (EdgeKey × α))
    (ctab : List (EdgeKey × Nat)) (hnd : (edges.map Prod.fst).Nodup) :
    (join_dataframe edges ctab).length = ctab.length ∧
    ((∀ p ∈ ctab, ∃ a, (p.1, a) ∈ edges) →
      ∀ row ∈ join_dataframe edges ctab,
        ∃ a, row.2.2 = some a ∧ (row.1, a) ∈ edges) := by
  constructor
  · induction ctab with
    | nil => rfl
    | cons p ps ih =>
      simp only [join_dataframe, List.map_cons, List.flatten_cons, List.length_append]
      have h1 := joinRows_length edges p hnd
      simp only [join_dataframe] at ih
      simp [h1, ih]
      omega
  · intro htot row hrow
    simp only [join_dataframe] at hrow
    rcases List.mem_flatten.1 hrow with ⟨l, hl, hrl⟩
    rcases List.mem_map.1 hl with ⟨p, hp, rfl⟩
    exact mem_joinRows (htot p hp) hrl

theorem C6_witness :
    (join_dataframe [((0, 1, 0), 7)] [((0, 1, 0), 2)]).length =
      ([((0, 1, 0), 2)] : List (EdgeKey × Nat)).length ∧
    ((∀ p ∈ ([((0, 1, 0), 2)] : List (EdgeKey × Nat)),
        ∃ a, (p.1, a) ∈ [((0, 1, 0), 7)]) →
      ∀ row ∈ join_dataframe [((0, 1, 0), 7)] [((0, 1, 0), 2)],
        ∃ a, row.2.2 = some a ∧ (row.1, a) ∈ [((0, 1, 0), 7)]) :=
  C6_join_total_no_dropped_rows [((0, 1, 0), 7)] [((0, 1, 0), 2)] (by decide)

/-- The minimum of the pandas numeric column
`self.centrality_gdf["centrality"].min()`, for the nonempty column
`c :: cs`.  (Pandas yields NaN on an empty column; an empty layer has no
rows, so the per-row claims are vacuous there and the value at `[]` is
irrelevant.) -/
def colMin : List ℚ → ℚ
  | [] => 0
  | c :: cs => cs.foldl min c

/-- The maximum of the pandas numeric column, `.max()`. -/
def colMax : List ℚ → ℚ
  | [] => 0
  | c :: cs => cs.foldl max c

/-- Elementwise division of a pandas Series, with the IEEE behaviour the
floats of the source have: a zero denominator (arising in `plot_network`
only as 0/0, when every centrality value equals the minimum) produces NaN,
modelled as `none`. -/
def seriesDiv (x y : ℚ) : Option ℚ := if y = 0 then none else some (x / y)

/-- The weight column computed by `BetweennessCentrality.plot_network`:

    (centrality - centrality.min()) / (centrality.max() - centrality.min())

applied elementwise to the centrality column `l`. -/
def normalizeWeights (l : List ℚ) : List (Option ℚ) :=
  l.map (fun c => seriesDiv (c - colMin l) (colMax l - colMin l))

theorem foldl_min_le_init (cs : List ℚ) : ∀ a : ℚ, cs.foldl min a ≤ a := by
  induction cs with
  | nil => intro a; simp
  | cons x xs ih =>
    intro a
    simp only [List.foldl_cons]
    exact (ih (min a x)).trans (min_le_left a x)

theorem foldl_min_le_mem (cs : List ℚ) : ∀ (a c : ℚ), c ∈ cs → cs.foldl min a ≤ c := by
  induction cs with
  | nil => intro a c hc; cases hc
  | cons x xs ih =>
    intro a c hc
    rcases List.mem_cons.1 hc with rfl | hcs
    · simp only [List.foldl_cons]
      exact (foldl_min_le_init xs (min a c)).trans (min_le_right a c)
    · exact ih (min a x) c hcs

theorem init_le_foldl_max (cs : List ℚ) : ∀ a : ℚ, a ≤ cs.foldl max a := by
  induction cs with
  | nil => intro a; simp
  | cons x xs ih =>
    intro a
    simp only [List.foldl_cons]
    exact (le_max_left a x).trans (ih (max a x))

theorem mem_le_foldl_max (cs : List ℚ) : ∀ (a c : ℚ), c ∈ cs → c ≤ cs.foldl max a := by
  induction cs with
  | nil => intro a c hc; cases hc
  | cons x xs ih =>
    intro a c hc
    rcases List.mem_cons.1 hc with rfl | hcs
    · simp only [List.foldl_cons]
      exact (le_max_right a c).trans (init_le_foldl_max xs (max a c))
    · exact ih (max a x) c hcs

theorem colMin_le_of_mem {l : List ℚ} {c : ℚ} (hc : c ∈ l) : colMin l ≤ c := by
  cases l with
  | nil => cases hc
  | cons a cs =>
    rcases List.mem_cons.1 hc with rfl | hcs
    · exact foldl_min_le_init cs c
    · exact foldl_min_le_mem cs a c hcs

theorem le_colMax_of_mem {l : List ℚ} {c : ℚ} (hc : c ∈ l) : c ≤ colMax l := by
  cases l with
  | nil => cases hc
  | cons a cs =>
    rcases List.mem_cons.1 hc with rfl | hcs
    · exact init_le_foldl_max cs c
    · exact mem_le_foldl_max cs a c hcs

/-- C7 counterexample: on a layer whose centrality values are all equal
(here `[1, 1]`), the denominator `max - min` of the normalization in
`plot_network` is zero, every computed weight is NaN (0/0), and so the
weights do not lie in [0, 1] — refuting the claim for the all-equal case. -/
theorem C7_counterexample :
    ¬ ∀ w ∈ normalizeWeights [1, 1], ∃ q, w = some q ∧ 0 ≤ q ∧ q ≤ 1 := by
  intro h
  have hval : normalizeWeights [1, 1] = [none, none] := by
    simp [normalizeWeights, colMin, colMax, seriesDiv]
  have hmem : (none : Option ℚ) ∈ normalizeWeights [1, 1] := by
    rw [hval]; simp
  rcases h none hmem with ⟨q, hq, _⟩
  cases hq

/-- C7 (amended): whenever the centrality column of the layer is not
constant (its minimum and maximum differ), the weight
`(c - min) / (max - min)` computed by `plot_network` for every row is an
actual number lying in [0, 1].  When all values are equal the weights are
NaN (0/0), not values in [0, 1] — see the counterexample. -/
theorem C7_normalized_weights_in_unit_interval (l : List ℚ)
    (hne : colMin l ≠ colMax l) :
    ∀ w ∈ normalizeWeights l, ∃ q, w = some q ∧ 0 ≤ q ∧ q ≤ 1 := by
  intro w hw
  rcases List.mem_map.1 hw with ⟨c, hc, rfl⟩
  have hm : colMin l ≤ c := colMin_le_of_mem hc
  have hM : c ≤ colMax l := le_colMax_of_mem hc
  have hlt : colMin l < colMax l := lt_of_le_of_ne (hm.trans hM) hne
  have hpos : 0 < colMax l - colMin l := by linarith
  refine ⟨(c - colMin l) / (colMax l - colMin l), ?_, ?_, ?_⟩
  · simp [seriesDiv, ne_of_gt hpos]
  · exact div_nonneg (by linarith) (by linarith)
  · rw [div_le_one hpos]
    linarith

theorem C7_witness :
    ∃ q, (some (0 : ℚ)) = some q ∧ 0 ≤ q ∧ q ≤ 1 :=
  C7_normalized_weights_in_unit_interval [0, 1] (by simp [colMin, colMax])
    (some 0)
    (by
      have h1 : colMin [0, 1] = 0 := by norm_num [colMin]
      have h2 : colMax [0, 1] = 1 := by norm_num [colMax]
      norm_num [normalizeWeights, h1, h2, seriesDiv])

/-- A Python exception relevant to the top-level control flow of `main`:
`ValueError` (the only class its `try/except` catches) and the
`SystemExit` argparse raises when rejecting an argument. -/
inductive PyErr : Type
  | valueError (msg : String)
  | systemExit (code : Nat)
deriving DecidableEq

/-- The CLI arguments of `input_from_commandline` relevant to claim C8. -/
structure CliArgs : Type where
  study_area : String
  outfile : String
  route_types : String
deriving DecidableEq

/-- `mymodule2.input_from_commandline`: the `route_types` positional
argument is declared with `choices=["shortest", "fastest"]`.  On any other
value argparse — per the standard library's documented behaviour for
`parse_args` on an invalid choice — prints a usage message and raises
`SystemExit` with exit code 2; it does not raise `ValueError`. -/
def input_from_commandline (study_area outfile route_types : String) :
    Except PyErr CliArgs :=
  if route_types = "shortest" ∨ route_types = "fastest" then
    Except.ok ⟨study_area, outfile, route_types⟩
  else Except.error (.systemExit 2)

/-- The possible outcomes of the input step of `main`. -/
inductive MainInputOutcome : Type
  | proceeded (a : CliArgs)
  | caughtGeneric (msg : String)
  | uncaught (e : PyErr)
deriving DecidableEq

/-- The input step of `main`:

    try:
        args = mymodule2.input_from_commandline()
        ...
    except ValueError:
        print("Please check the input")

Only `ValueError` is caught (and answered with the generic message);
every other exception propagates uncaught. -/
def mainInputStep (study_area outfile route_types : String) : MainInputOutcome :=
  match input_from_commandline study_area outfile route_types with
  | .ok a => .proceeded a
  | .error (.valueError _) => .caughtGeneric "Please check the input"
  | .error e => .uncaught e

/-- C8 counterexample: on the invalid route type "slowest" the program
does not raise `ValueError` at all — the argument parser raises
`SystemExit`, which the `except ValueError` in `main` does not catch —
refuting the claim that a generic `ValueError` is raised and answered at
the top level. -/
theorem C8_counterexample :
    mainInputStep "Nowhere" "out" "slowest" = .uncaught (.systemExit 2) ∧
    ∀ msg, input_from_commandline "Nowhere" "out" "slowest" ≠
      Except.error (.valueError msg) := by
  constructor
  · rfl
  · intro msg h
    simp [input_from_commandline] at h

/-- C8 (amended): for every input whose route-type value is outside
{shortest, fastest}, the argument parser rejects it with a usage error —
`SystemExit` (exit code 2), not `ValueError` — and the top-level
`except ValueError` in `main` does not catch it, so no generic message is
produced; no `ValueError` is raised anywhere on this path. -/
theorem C8_invalid_route_type_uncaught (study_area outfile rt : String)
    (h1 : rt ≠ "shortest") (h2 : rt ≠ "fastest") :
    mainInputStep study_area outfile rt = .uncaught (.systemExit 2) ∧
    ∀ msg, input_from_commandline study_area outfile rt ≠
      Except.error (.valueError msg) := by
  have hcond : ¬(rt = "shortest" ∨ rt = "fastest") := by tauto
  constructor
  · simp [mainInputStep, input_from_commandline, hcond]
  · intro msg
    simp [input_from_commandline, hcond]

theorem C8_witness :
    mainInputStep "Somewhere" "outdir" "quickest" = .uncaught (.systemExit 2) ∧
    ∀ msg, input_from_commandline "Somewhere" "outdir" "quickest" ≠
      Except.error (.valueError msg) :=
  C8_invalid_route_type_uncaught "Somewhere" "outdir" "quickest"
    (by decide) (by decide)

theorem digitChar_ne_underscore (m : Nat) : Nat.digitChar m ≠ '_' := by
  rcases Nat.lt_or_ge m 16 with h | h
  · interval_cases m <;> decide
  · unfold Nat.digitChar
    repeat rw [if_neg (by omega)]
    decide

theorem toDigitsCore_no_underscore (b : Nat) :
    ∀ (fuel n : Nat) (ds : List Char), (∀ c ∈ ds, c ≠ '_') →
      ∀ c ∈ Nat.toDigitsCore b fuel n ds, c ≠ '_' := by
  intro fuel
  induction fuel with
  | zero =>
    intro n ds hds
    simpa [Nat.toDigitsCore] using hds
  | succ fuel ih =>
    intro n ds hds
    simp only [Nat.toDigitsCore]
    split
    · intro c hc
      rcases List.mem_cons.1 hc with rfl | h
      · exact digitChar_ne_underscore _
      · exact hds c h
    · refine ih _ _ ?_
      intro c hc
      rcases List.mem_cons.1 hc with rfl | h
      · exact digitChar_ne_underscore _
      · exact hds c h

theorem repr_data_eq_toDigits (n : Nat) : (Nat.repr n).data = Nat.toDigits 10 n := rfl

theorem repr_no_underscore (n : Nat) : '_' ∉ (Nat.repr n).data := by
  intro h
  exact toDigitsCore_no_underscore 10 (n + 1) n [] (by simp) '_'
    (by simpa [repr_data_eq_toDigits, Nat.toDigits] using h) rfl

/-- The numeric value of a decimal digit string; the left inverse showing
that the decimal rendering `Nat.repr` (the f-string rendering of the
route count) is injective. -/
def ofDigits (cs : List Char) : Nat :=
  cs.foldl (fun acc c => 10 * acc + (c.toNat - '0'.toNat)) 0

theorem toDigitsCore_append :
    ∀ (fuel n : Nat) (ds : List Char),
      Nat.toDigitsCore 10 fuel n ds = Nat.toDigitsCore 10 fuel n [] ++ ds := by
  intro fuel
  induction fuel with
  | zero => intro n ds; simp [Nat.toDigitsCore]
  | succ fuel ih =>
    intro n ds
    simp only [Nat.toDigitsCore]
    by_cases h : n / 10 = 0
    · simp [h]
    · rw [if_neg h, if_neg h, ih (n / 10) (Nat.digitChar (n % 10) :: ds),
        ih (n / 10) [Nat.digitChar (n % 10)], List.append_assoc,
        List.singleton_append]

theorem charVal_digitChar {m : Nat} (h : m < 10) :
    (Nat.digitChar m).toNat - '0'.toNat = m := by
  interval_cases m <;> decide

theorem ofDigits_toDigitsCore :
    ∀ (fuel n : Nat), n < fuel → ofDigits (Nat.toDigitsCore 10 fuel n []) = n := by
  intro fuel
  induction fuel with
  | zero => intro n h; omega
  | succ fuel ih =>
    intro n h
    simp only [Nat.toDigitsCore]
    by_cases h0 : n / 10 = 0
    · rw [if_pos h0]
      have hn : n < 10 := by omega
      have hmod : n % 10 = n := by omega
      simp only [ofDigits, List.foldl_cons, List.foldl_nil, Nat.mul_zero, Nat.zero_add]
      rw [hmod, charVal_digitChar hn]
    · rw [if_neg h0, toDigitsCore_append fuel (n / 10) [Nat.digitChar (n % 10)]]
      have hdiv : n / 10 < fuel := by omega
      unfold ofDigits
      rw [List.foldl_append]
      simp only [List.foldl_cons, List.foldl_nil]
      have hih := ih (n / 10) hdiv
      unfold ofDigits at hih
      rw [hih, charVal_digitChar (Nat.mod_lt n (by norm_num))]
      omega

theorem Nat_repr_inj {n₁ n₂ : Nat} (h : Nat.repr n₁ = Nat.repr n₂) : n₁ = n₂ := by
  have hd : Nat.toDigits 10 n₁ = Nat.toDigits 10 n₂ := by
    have hdata := congrArg String.data h
    simpa [repr_data_eq_toDigits] using hdata
  have h₁ := ofDigits_toDigitsCore (n₁ + 1) n₁ (by omega)
  have h₂ := ofDigits_toDigitsCore (n₂ + 1) n₂ (by omega)
  rw [show Nat.toDigits 10 n₁ = Nat.toDigitsCore 10 (n₁ + 1) n₁ [] from rfl,
    show Nat.toDigits 10 n₂ = Nat.toDigitsCore 10 (n₂ + 1) n₂ [] from rfl] at hd
  rw [← h₁, ← h₂, hd]

theorem first_underscore_split_inj :
    ∀ (t₁ t₂ b₁ b₂ : List Char), '_' ∉ t₁ → '_' ∉ t₂ →
      t₁ ++ '_' :: b₁ = t₂ ++ '_' :: b₂ → t₁ = t₂ ∧ b₁ = b₂ := by
  intro t₁
  induction t₁ with
  | nil =>
    intro t₂ b₁ b₂ h1 h2 heq
    cases t₂ with
    | nil => simpa using heq
    | cons c t₂ =>
      simp only [List.nil_append, List.cons_append, List.cons.injEq] at heq
      exact absurd (by rw [heq.1]; exact List.mem_cons_self c t₂) h2
  | cons c t₁ ih =>
    intro t₂ b₁ b₂ h1 h2 heq
    cases t₂ with
    | nil =>
      simp only [List.nil_append, List.cons_append, List.cons.injEq] at heq
      exact absurd (by rw [← heq.1]; exact List.mem_cons_self c t₁) h1
    | cons d t₂ =>
      simp only [List.cons_append, List.cons.injEq] at heq
      obtain ⟨rfl, htl⟩ := heq
      have h1' : '_' ∉ t₁ := fun hm => h1 (List.mem_cons_of_mem _ hm)
      have h2' : '_' ∉ t₂ := fun hm => h2 (List.mem_cons_of_mem _ hm)
      rcases ih t₂ b₁ b₂ h1' h2' htl with ⟨rfl, rfl⟩
      exact ⟨rfl, rfl⟩

theorem reverse_append_underscore (x y : List Char) :
    (x ++ '_' :: y).reverse = y.reverse ++ '_' :: x.reverse := by
  rw [List.reverse_append, List.reverse_cons, List.append_assoc, List.singleton_append]

theorem last_underscore_split_inj {p₁ p₂ s₁ s₂ : List Char}
    (h1 : '_' ∉ s₁) (h2 : '_' ∉ s₂)
    (heq : p₁ ++ '_' :: s₁ = p₂ ++ '_' :: s₂) : p₁ = p₂ ∧ s₁ = s₂ := by
  have hrev := congrArg List.reverse heq
  rw [reverse_append_underscore, reverse_append_underscore] at hrev
  have h1' : '_' ∉ s₁.reverse := by simpa using h1
  have h2' : '_' ∉ s₂.reverse := by simpa using h2
  rcases first_underscore_split_inj _ _ _ _ h1' h2' hrev with ⟨hs, hp⟩
  exact ⟨List.reverse_injective hp, List.reverse_injective hs⟩

/-- The directory name built in `BetweennessCentrality.create_new_folder`:
`f"{self.area}_{self.type}_{self.method}_{self.n}"`, with the route count
`self.n` rendered in decimal as the f-string does. -/
def dirName (area route_types method : String) (n : Nat) : String :=
  area ++ "_" ++ route_types ++ "_" ++ method ++ "_" ++ Nat.repr n

theorem underscore_data : ("_" : String).data = ['_'] := rfl

theorem dirName_data (area rt m : String) (n : Nat) :
    (dirName area rt m n).data =
      ((area.data ++ '_' :: rt.data) ++ '_' :: m.data) ++ '_' :: (Nat.repr n).data := by
  simp [dirName, underscore_data]

/-- C9: the output directory name is the deterministic function
`{study_area}_{route_types}_{method}_{n}` of the tuple, in that component
order (definition `dirName`), and is collision-free: for the values the
program can actually produce (route type one of shortest/fastest, method
one of networkx/geographical, `n` a decimal-rendered count), distinct
tuples give distinct names.  The full output directory path prefixes
`outfile` with a path separator — see `create_new_folder`. -/
theorem C9_folder_name_collision_free
    (a₁ a₂ rt₁ rt₂ m₁ m₂ : String) (n₁ n₂ : Nat)
    (hrt₁ : rt₁ = "shortest" ∨ rt₁ = "fastest")
    (hrt₂ : rt₂ = "shortest" ∨ rt₂ = "fastest")
    (hm₁ : m₁ = "networkx" ∨ m₁ = "geographical")
    (hm₂ : m₂ = "networkx" ∨ m₂ = "geographical")
    (heq : dirName a₁ rt₁ m₁ n₁ = dirName a₂ rt₂ m₂ n₂) :
    a₁ = a₂ ∧ rt₁ = rt₂ ∧ m₁ = m₂ ∧ n₁ = n₂ := by
  have hd := congrArg String.data heq
  rw [dirName_data, dirName_data] at hd
  have hu_rt₁ : '_' ∉ rt₁.data := by rcases hrt₁ with rfl | rfl <;> decide
  have hu_rt₂ : '_' ∉ rt₂.data := by rcases hrt₂ with rfl | rfl <;> decide
  have hu_m₁ : '_' ∉ m₁.data := by rcases hm₁ with rfl | rfl <;> decide
  have hu_m₂ : '_' ∉ m₂.data := by rcases hm₂ with rfl | rfl <;> decide
  rcases last_underscore_split_inj (repr_no_underscore n₁) (repr_no_underscore n₂) hd
    with ⟨hd2, hrepr⟩
  rcases last_underscore_split_inj hu_m₁ hu_m₂ hd2 with ⟨hd3, hm⟩
  rcases last_underscore_split_inj hu_rt₁ hu_rt₂ hd3 with ⟨ha, hrt⟩
  refine ⟨String.ext ha, String.ext hrt, String.ext hm, Nat_repr_inj (String.ext hrepr)⟩

theorem C9_witness :
    ("Town" : String) = "Town" ∧ ("shortest" : String) = "shortest" ∧
      ("networkx" : String) = "networkx" ∧ (3 : Nat) = 3 :=
  C9_folder_name_collision_free "Town" "Town" "shortest" "shortest"
    "networkx" "networkx" 3 3 (Or.inl rfl) (Or.inl rfl) (Or.inl rfl) (Or.inl rfl) rfl

/-- `os.path.join(a, b)` for the POSIX paths used here: an absolute second
component replaces the first; otherwise the two components are attached
with a single separator. -/
def pathJoin (a b : String) : String :=
  if b.startsWith "/" then b
  else if a = "" ∨ a.endsWith "/" then a ++ b
  else a ++ "/" ++ b

/-- The output path computed in `BetweennessCentrality.create_new_folder`:
`os.path.join(self.outfile, f"{self.area}_{self.type}_{self.method}_{self.n}")`. -/
def outputPath (outfile area rt m : String) (n : Nat) : String :=
  pathJoin outfile (dirName area rt m n)

/-- `os.makedirs(p)`: creates directory `p`, raising `FileExistsError` if
it already exists.  The file system is modelled as the list of existing
directory paths. -/
def makedirs (fs : List String) (p : String) : Except String (List String) :=
  if p ∈ fs then Except.error "FileExistsError" else Except.ok (p :: fs)

/-- `BetweennessCentrality.create_new_folder`:

    output_path = os.path.join(self.outfile, f"{...}_{...}_{...}_{...}")
    if not os.path.exists(output_path):
        os.makedirs(output_path)
    return output_path

returning the path together with the file system after the call. -/
def create_new_folder (fs : List String) (outfile area rt m : String) (n : Nat) :
    Except String (String × List String) :=
  let output_path := outputPath outfile area rt m n
  if output_path ∈ fs then Except.ok (output_path, fs)
  else
    match makedirs fs output_path with
    | Except.ok fsNew => Except.ok (output_path, fsNew)
    | Except.error e => Except.error e

/-- `BetweennessCentrality.save_as_geopackage`: writes `centrality.gpkg`
into the folder returned by its own call to `create_new_folder`; yields
the written file's path and the file system after the call. -/
def save_as_geopackage (fs : List String) (outfile area rt m : String) (n : Nat) :
    Except String (String × List String) :=
  match create_new_folder fs outfile area rt m n with
  | Except.ok (p, fsNew) => Except.ok (pathJoin p "centrality.gpkg", fsNew)
  | Except.error e => Except.error e

/-- `BetweennessCentrality.save_as_png`: writes `centrality.png` into the
folder returned by its own call to `create_new_folder`. -/
def save_as_png (fs : List String) (outfile area rt m : String) (n : Nat) :
    Except String (String × List String) :=
  match create_new_folder fs outfile area rt m n with
  | Except.ok (p, fsNew) => Except.ok (pathJoin p "centrality.png", fsNew)
  | Except.error e => Except.error e

/-- C10: `create_new_folder` is idempotent.  From any starting file system
the first call succeeds with the deterministic path `outputPath` and some
file system `fs₁`; calling it again from `fs₁` returns the very same path
and leaves `fs₁` unchanged (so any number of repeated calls — in
particular the one inside `save_as_geopackage` and the one inside
`save_as_png` during export — return the same directory and never raise
`FileExistsError`), and both save functions succeed, writing into that
same directory. -/
theorem C10_create_new_folder_idempotent (fs : List String)
    (outfile area rt m : String) (n : Nat) :
    ∃ fs₁, create_new_folder fs outfile area rt m n =
        Except.ok (outputPath outfile area rt m n, fs₁) ∧
      create_new_folder fs₁ outfile area rt m n =
        Except.ok (outputPath outfile area rt m n, fs₁) ∧
      save_as_geopackage fs₁ outfile area rt m n =
        Except.ok (pathJoin (outputPath outfile area rt m n) "centrality.gpkg", fs₁) ∧
      save_as_png fs₁ outfile area rt m n =
        Except.ok (pathJoin (outputPath outfile area rt m n) "centrality.png", fs₁) := by
  by_cases hp : outputPath outfile area rt m n ∈ fs
  · refine ⟨fs, ?_, ?_, ?_, ?_⟩ <;>
      simp [create_new_folder, save_as_geopackage, save_as_png, hp]
  · refine ⟨outputPath outfile area rt m n :: fs, ?_, ?_, ?_, ?_⟩ <;>
      simp [create_new_folder, save_as_geopackage, save_as_png, makedirs, hp]

end BC
